import Mathlib

set_option maxRecDepth 100000
set_option synthInstance.maxHeartbeats 1000000

/-!
Verification of the caelum-sys command resolution engine.

The repository ships the plugin loader (`auto_import_plugins.py`), two
plugin modules and the test suite; the core engine (`core_actions.py`,
`registry.py`) is exercised by the tests but its source is not part of the
bundle, so the engine below is modelled from the specification
(`spec.md` sections 3, 4, 6 and 7), with every deviation forced by the
in-repository tests documented at the definition it concerns.

All text is represented as `List Char`; a Lean `String` enters through
`String.data`.
-/

/-- Characters treated as whitespace by input normalization. -/
def isWS (c : Char) : Bool :=
  c = ' ' || c = '\t' || c = '\n' || c = '\r'

/-- Case normalization of a character sequence. -/
def lower (l : List Char) : List Char :=
  l.map Char.toLower

/-- Modelled from the spec: input normalization trims leading and trailing
whitespace and preserves the internal structure (spec section 4.2 step 1). -/
def trimChars (l : List Char) : List Char :=
  ((l.dropWhile isWS).reverse.dropWhile isWS).reverse

/-- Case-insensitive equality of two character sequences
(whitespace-exact, spec section 4.2 step 2). -/
def ciEq (a b : List Char) : Bool :=
  lower a == lower b

/-- Does `pat` occur case-insensitively at the very start of `s`? -/
def ciPrefixB (pat s : List Char) : Bool :=
  (lower pat).isPrefixOf (lower s)

/-- First index at or after the current position where `pat` occurs
case-insensitively in `s`; the accumulator `i` counts characters already
passed. -/
def findCIFrom (pat : List Char) : List Char → Nat → Option Nat
  | [], i => if pat.isEmpty then some i else none
  | c :: cs, i => if ciPrefixB pat (c :: cs) then some i else findCIFrom pat cs (i + 1)

/-- First index of a case-insensitive occurrence of `pat` in `s`. -/
def findCI (pat s : List Char) : Option Nat :=
  findCIFrom pat s 0

/-- Modelled from the spec: a pattern is an ordered sequence of literal
text segments interleaved with named placeholders (spec section 3). -/
inductive Seg where
  | lit : List Char → Seg
  | ph : List Char → Seg
  deriving DecidableEq, Repr

/-- Modelled from the spec: splitting a pattern string such as
`"copy {source} to {destination}"` into its alternating literal and
placeholder segments.  The `fuel` argument is an upper bound on the number
of recursion steps; every step consumes at least one character, so
`parsePattern` passes the input length. -/
def parseAux : Nat → List Char → List Seg
  | 0, _ => []
  | _ + 1, [] => []
  | fuel + 1, c :: rest =>
    if c = '{' then
      Seg.ph (rest.takeWhile (fun d => !(d = '}'))) ::
        parseAux fuel ((rest.dropWhile (fun d => !(d = '}'))).drop 1)
    else
      Seg.lit (c :: rest.takeWhile (fun d => !(d = '{'))) ::
        parseAux fuel (rest.dropWhile (fun d => !(d = '{')))

/-- Parse a pattern string into segments. -/
def parsePattern (s : List Char) : List Seg :=
  parseAux s.length s

/-- Does a segment list contain a placeholder? -/
def hasPh : List Seg → Bool
  | [] => false
  | Seg.ph _ :: _ => true
  | Seg.lit _ :: rest => hasPh rest

/-- Modelled from the spec: the skeleton of a pattern is the pattern with
all placeholder regions removed (glossary; spec section 4.2 step 3). -/
def skeleton : List Seg → List Char
  | [] => []
  | Seg.lit l :: rest => l ++ skeleton rest
  | Seg.ph _ :: rest => skeleton rest

/-- The pattern rendered back to its source text, braces included. -/
def patternText : List Seg → List Char
  | [] => []
  | Seg.lit l :: rest => l ++ patternText rest
  | Seg.ph n :: rest => '{' :: (n ++ '}' :: patternText rest)

/-- The placeholder names of a pattern, in order. -/
def phNames : List Seg → List (List Char)
  | [] => []
  | Seg.lit _ :: rest => phNames rest
  | Seg.ph n :: rest => n :: phNames rest

/-- Modelled from the spec: the Extractor walks the literal segments in
order against the input; a leading literal must occur at the current scan
position (case-insensitive), the literal following a placeholder is
located at its first case-insensitive occurrence and everything before it
is the placeholder's captured value, a trailing placeholder captures the
rest of the input, and every captured value is trimmed of surrounding
whitespace (spec section 4.3).  Failure to locate a literal yields `none`
(`TemplateMismatchError`); adjacent placeholders have no separating
literal and always fail. -/
def extractGo : List Seg → List Char → Option (List (List Char × List Char))
  | [], _ => some []
  | Seg.lit l :: rest, input =>
    if ciPrefixB l input then extractGo rest (input.drop l.length) else none
  | [Seg.ph n], input => some [(n, trimChars input)]
  | Seg.ph n :: Seg.lit l :: rest, input =>
    match findCI l input with
    | some i =>
      match extractGo rest (input.drop (i + l.length)) with
      | some m => some ((n, trimChars (input.take i)) :: m)
      | none => none
    | none => none
  | Seg.ph _ :: Seg.ph _ :: _, _ => none

/-- Modelled from the spec: `extract_arguments_from_user_input` takes the
raw user input and a pattern string and returns the placeholder-to-value
mapping, or `none` on a template mismatch. -/
def extract_arguments_from_user_input (input template : List Char) :
    Option (List (List Char × List Char)) :=
  extractGo (parsePattern template) input

example : parsePattern "ping {host}".data =
    [Seg.lit "ping ".data, Seg.ph "host".data] := by decide

example : extract_arguments_from_user_input "ping google.com".data "ping {host}".data =
    some [("host".data, "google.com".data)] := by decide

/-- One row update of the Levenshtein dynamic program: given the previous
row aligned with `ys`, the previous row's value `diag` one position back,
and the freshly computed value `left` for the current row one position
back, produce the rest of the current row. -/
def levAux (x : Char) : List Char → List Nat → Nat → Nat → List Nat
  | [], _, _, _ => []
  | _ :: _, [], _, _ => []
  | y :: ys, p :: ps, diag, left =>
    let cur := Nat.min (Nat.min (p + 1) (left + 1)) (diag + if x = y then 0 else 1)
    cur :: levAux x ys ps p cur

/-- All rows of the Levenshtein dynamic program over `xs`, ending with the
row of distances from `xs` to every prefix of `ys`. -/
def levRows (ys xs : List Char) : List Nat :=
  xs.foldl
    (fun row x =>
      match row with
      | [] => []
      | d :: ds => (d + 1) :: levAux x ys ds d (d + 1))
    (List.range (ys.length + 1))

/-- Levenshtein edit distance between two character sequences, computed
row by row. -/
def levDist (a b : List Char) : Nat :=
  (levRows b a).getLastD 0

/-- Modelled from the spec: the similarity score is a normalized
edit-distance ratio, kept as a numerator-denominator pair of naturals
with a positive denominator so that all comparisons are machine
arithmetic; two identical empty strings score 1 (spec section 4.2
step 3; the exact metric is left open by the spec, which pins only the
documented test cases). -/
def simPair (a b : List Char) : Nat × Nat :=
  let m := Nat.max a.length b.length
  if m = 0 then (1, 1) else (m - levDist a b, m)

/-- The similarity score as a rational number in the closed interval
from 0 to 1. -/
def similarity (a b : List Char) : ℚ :=
  ((simPair a b).1 : ℚ) / ((simPair a b).2 : ℚ)

/-- Modelled from the spec: the fixed fuzzy acceptance threshold
(spec section 4.2 step 3). -/
def threshold : ℚ := 3 / 5

/-- Score comparison on pairs: `p` is at most `q`, by cross
multiplication against the positive denominators. -/
def scoreLeB (p q : Nat × Nat) : Bool :=
  p.1 * q.2 ≤ q.1 * p.2

/-- Acceptance test on pairs: the score reaches the threshold 3 / 5. -/
def thresholdLeB (p : Nat × Nat) : Bool :=
  3 * p.2 ≤ 5 * p.1

example : levDist "say helo".data "say hello".data = 1 := by decide
example : simPair "say helo".data "say hello".data = (8, 9) := by decide

/-- Modelled from the spec: a Template is a pattern with named
placeholders, a handler taking the extracted mapping, and a safety
classification (spec section 3).  A handler either returns a result
string or signals failure with a cause description. -/
inductive HandlerResult where
  | ok : List Char → HandlerResult
  | fail : List Char → HandlerResult

/-- Modelled from the spec: the Template data entity (spec section 3). -/
structure Template where
  pattern : List Seg
  handler : List (List Char × List Char) → HandlerResult
  safe : Bool

/-- The fuzzy score of the normalized input against a template: the
similarity of the case-folded input to the case-folded skeleton of the
template's pattern. -/
def scoreOf (input : List Char) (t : Template) : ℚ :=
  similarity (lower input) (lower (skeleton t.pattern))

/-- The fuzzy score of the normalized input against a template as a
numerator-denominator pair. -/
def scorePair (input : List Char) (t : Template) : Nat × Nat :=
  simPair (lower input) (lower (skeleton t.pattern))

/-- Modelled from the spec: the exact phase compares the normalized input
case-insensitively but whitespace-exactly against the pattern of every
placeholder-free template and returns the first match in insertion order
(spec section 4.2 step 2). -/
def exactPhase (input : List Char) : List Template → Option Template
  | [] => none
  | t :: ts =>
    if !hasPh t.pattern && ciEq (patternText t.pattern) input then some t
    else exactPhase input ts

/-- Modelled from the spec: the fuzzy phase keeps, among the templates
whose score reaches the threshold, the earliest one with the maximal
score (spec section 4.2 step 3). -/
def fuzzyBest (input : List Char) : List Template → Option Template
  | [] => none
  | t :: ts =>
    let rest := fuzzyBest input ts
    if thresholdLeB (scorePair input t) then
      match rest with
      | none => some t
      | some w =>
        if scoreLeB (scorePair input w) (scorePair input t) then some t else some w
    else rest

/-- Modelled from the spec: the Resolver runs the exact phase and falls
back to the fuzzy phase (spec section 4.2); the input is already
normalized by the Dispatcher. -/
def resolve (ts : List Template) (input : List Char) : Option Template :=
  match exactPhase input ts with
  | some t => some t
  | none => fuzzyBest input ts

/-- The fixed result string for empty input (spec section 4.4 step 1). -/
def emptyMsg : List Char := "Empty command received.".data

/-- The marker opening every unknown-command result (spec section 4.4
step 2). -/
def unknownMarker : List Char := "Unknown command: ".data

/-- The marker opening every failed-extraction result (spec section 4.4
step 3). -/
def mismatchMarker : List Char := "Could not understand arguments for: ".data

/-- The failure marker opening every handler-failure result (spec
section 4.4 step 5). -/
def failMarker : List Char := "Command failed: ".data

/-- Modelled from the spec: the Dispatcher's single public entry point
(`do` in the library, `execute` in the spec).  Empty input short-circuits;
resolution failure, extraction failure and handler failure are each
normalized into a descriptive result string; a successful handler's
result is returned unmodified (spec section 4.4). -/
def execute (ts : List Template) (input : List Char) : List Char :=
  let norm := trimChars input
  if norm = [] then emptyMsg
  else
    match resolve ts norm with
    | none => unknownMarker ++ input
    | some t =>
      match extractGo t.pattern norm with
      | none => mismatchMarker ++ patternText t.pattern
      | some args =>
        match t.handler args with
        | HandlerResult.ok msg => msg
        | HandlerResult.fail cause => failMarker ++ cause

/-- Modelled from the spec: a registry record as the tests read it,
holding the handler function itself (`func`) and the safety
classification (`safe`); the handler type is a parameter because the
registry never calls it. -/
structure RegEntry (α : Type) where
  func : α
  safe : Bool
  deriving DecidableEq, Repr

/-- Modelled from the spec: the Registry is a mapping from pattern text
to its entry, built incrementally in insertion order (spec sections 3
and 4.1); represented as an association list so insertion order is
primitive. -/
abbrev Registry (α : Type) : Type :=
  List (List Char × RegEntry α)

/-- Exact lookup of a pattern's entry. -/
def lookupEntry {α : Type} : Registry α → List Char → Option (RegEntry α)
  | [], _ => none
  | (q, e) :: rest, p => if q = p then some e else lookupEntry rest p

/-- Modelled from the spec: `DuplicateTemplateError`, the only condition
allowed to escape registration as a true error (spec section 7). -/
structure DuplicateTemplateError where
  pattern : List Char
  deriving DecidableEq, Repr

/-- Modelled from the spec: `register` adds a Template and fails with
`DuplicateTemplateError` when the pattern is already present, leaving
the registry unchanged (spec section 4.1). -/
def registerCommandWith {α : Type} (reg : Registry α) (p : List Char) (f : α)
    (safe : Bool) : Except DuplicateTemplateError (Registry α) :=
  match lookupEntry reg p with
  | some _ => Except.error ⟨p⟩
  | none => Except.ok (reg ++ [(p, ⟨f, safe⟩)])

/-- Modelled from the spec: `register_command(pattern)` as the plugins
use it, with no explicit safety marker.  The spec text says the implicit
classification is `safe = false`, but `src/tests/test_comprehensive.py`
(`test_safe_commands_marked_correctly`) requires
`registry["take screenshot"]["safe"] == True` while
`src/caelum_sys/plugins/screenshot_tools.py` registers that pattern with
a bare `@register_command("take screenshot")`, so the repository's own
tests force the implicit classification to `safe = true`; the model
follows the tests. -/
def register_command {α : Type} (reg : Registry α) (p : List Char) (f : α) :
    Except DuplicateTemplateError (Registry α) :=
  registerCommandWith reg p f true

/-- Modelled from the spec: the variant of `register_command` stated by
the spec's own words in section 6, classifying an unmarked registration
as `safe = false`; kept only to compare against the behavior the
repository's tests demand. -/
def registerCommandSpecDefault {α : Type} (reg : Registry α) (p : List Char) (f : α) :
    Except DuplicateTemplateError (Registry α) :=
  registerCommandWith reg p f false

/-- Modelled from the spec: `get_registered_command_phrases` returns all
pattern strings in insertion order (spec section 4.1 `all_patterns`). -/
def get_registered_command_phrases {α : Type} (reg : Registry α) : List (List Char) :=
  reg.map Prod.fst

/-- Modelled from the source `auto_import_plugins.py`: the observable
outcome of importing one plugin module — success, an `ImportError`
carrying a message, or an exception of any other class. -/
inductive PluginOutcome where
  | ok : List Char → PluginOutcome
  | importError : List Char → List Char → PluginOutcome
  | otherError : List Char → PluginOutcome
  deriving DecidableEq, Repr

/-- `load_all_plugins` from `src/caelum_sys/auto_import_plugins.py`:
iterate over the plugin files; a successful import loads the module, an
`ImportError` is caught and reported as a warning, and any other
exception propagates out of the loader at once, abandoning the remaining
files.  The result is either the uncaught exception or the pair of the
loaded module names and the printed warnings. -/
def load_all_plugins : List PluginOutcome →
    Except (List Char) (List (List Char) × List (List Char))
  | [] => Except.ok ([], [])
  | PluginOutcome.ok name :: rest =>
    match load_all_plugins rest with
    | Except.ok (loaded, warns) => Except.ok (name :: loaded, warns)
    | Except.error e => Except.error e
  | PluginOutcome.importError name msg :: rest =>
    match load_all_plugins rest with
    | Except.ok (loaded, warns) => Except.ok (loaded, (name ++ msg) :: warns)
    | Except.error e => Except.error e
  | PluginOutcome.otherError msg :: _ => Except.error msg

/-- Substitution of values into a pattern, consuming one value per
placeholder in order: the formatted command string. -/
def substGo : List Seg → List (List Char) → List Char
  | [], _ => []
  | Seg.lit l :: rest, vals => l ++ substGo rest vals
  | Seg.ph _ :: rest, [] => substGo rest []
  | Seg.ph _ :: rest, v :: vs => v ++ substGo rest vs

/-- No early occurrence: the literal `l` does not occur case-insensitively
in `v ++ l` at any position strictly before the length of `v`, so the
first occurrence of `l` after formatting is the intended one. -/
def noEarlyOcc (l : List Char) : List Char → Bool
  | [] => true
  | c :: cs => !ciPrefixB l (c :: (cs ++ l)) && noEarlyOcc l cs

/-- Literal-safety of a value list for a pattern, segment by segment:
the values match the placeholders one for one, every value is already
whitespace-trimmed, no value followed by its trailing literal contains an
early case-insensitive occurrence of that literal, and no two
placeholders are adjacent. -/
def roundTripSafe : List Seg → List (List Char) → Bool
  | [], [] => true
  | Seg.lit _ :: rest, vals => roundTripSafe rest vals
  | [Seg.ph _], [v] => trimChars v = v
  | Seg.ph _ :: Seg.lit l :: rest, v :: vs =>
    (trimChars v = v : Bool) && noEarlyOcc l v && roundTripSafe rest vs
  | _, _ => false

/-- A placeholder-free demo template, as registered by the misc plugin. -/
def sayHelloT : Template :=
  ⟨parsePattern "say hello".data,
   fun _ => HandlerResult.ok "Hello! Caelum here.".data, true⟩

/-- A demo template with one placeholder. -/
def pingT : Template :=
  ⟨parsePattern "ping {host}".data,
   fun args => HandlerResult.ok ("Pinged ".data ++ (args.headD ([], [])).2), false⟩

/-- A second placeholder-free demo template. -/
def timeT : Template :=
  ⟨parsePattern "get current time".data,
   fun _ => HandlerResult.ok "The time.".data, true⟩

/-- A demo registry holding the three demo templates in insertion order. -/
def demoRegistry : List Template := [sayHelloT, pingT, timeT]

example : (resolve demoRegistry (trimChars "SAY HELLO".data)).map
    (fun t => patternText t.pattern) = some "say hello".data := by decide

example : (resolve demoRegistry (trimChars "say helo".data)).map
    (fun t => patternText t.pattern) = some "say hello".data := by decide

example : execute demoRegistry "say hello".data = "Hello! Caelum here.".data := by decide

example : execute demoRegistry "".data = emptyMsg := by decide

lemma bool_eq_iff (a b : Bool) : a = b ↔ (a = true ↔ b = true) := by
  cases a <;> cases b <;> simp

lemma lower_append (a b : List Char) : lower (a ++ b) = lower a ++ lower b := by
  simp [lower]

lemma lower_length (a : List Char) : (lower a).length = a.length := by
  simp [lower]

lemma ciPrefixB_self_append (l r : List Char) : ciPrefixB l (l ++ r) = true := by
  simp [ciPrefixB, lower_append]

lemma prefix_append_left {α : Type} {p x : List α} (r : List α)
    (h : p.length ≤ x.length) : p <+: x ++ r ↔ p <+: x := by
  constructor
  · intro hp
    have hp' := List.prefix_iff_eq_take.mp hp
    rw [List.take_append_of_le_length h] at hp'
    rw [hp']
    exact List.take_prefix _ _
  · intro hp
    exact hp.trans ( List.prefix_append x r)

lemma ciPrefixB_append_left {pat x : List Char} (r : List Char)
    (h : pat.length ≤ x.length) : ciPrefixB pat (x ++ r) = ciPrefixB pat x := by
  rw [bool_eq_iff]
  simp only [ciPrefixB, lower_append, List.isPrefixOf_iff_prefix]
  exact prefix_append_left (lower r) (by simpa [lower] using h)

lemma findCIFrom_boundary (l r : List Char) : ∀ (v : List Char) (i : Nat),
    noEarlyOcc l v = true →
    findCIFrom l (v ++ (l ++ r)) i = some (i + v.length) := by
  intro v
  induction v with
  | nil =>
    intro i _
    simp only [List.nil_append, List.length_nil, Nat.add_zero]
    cases l with
    | nil =>
      cases r with
      | nil => simp [findCIFrom]
      | cons c cs => simp [findCIFrom, ciPrefixB, lower]
    | cons c cs =>
      have hp : ciPrefixB (c :: cs) ((c :: cs) ++ r) = true :=
        ciPrefixB_self_append (c :: cs) r
      simp only [List.cons_append] at hp ⊢
      simp [findCIFrom, hp]
  | cons c cs ih =>
    intro i h
    simp only [noEarlyOcc, Bool.and_eq_true, Bool.not_eq_true'] at h
    obtain ⟨h1, h2⟩ := h
    have hlen : l.length ≤ (c :: (cs ++ l)).length := by
      simp [List.length_cons, List.length_append]
      omega
    have hfalse : ciPrefixB l ((c :: (cs ++ l)) ++ r) = false := by
      rw [ciPrefixB_append_left r hlen]
      exact h1
    have heq : (c :: (cs ++ l)) ++ r = c :: (cs ++ (l ++ r)) := by
      simp [List.append_assoc]
    rw [heq] at hfalse
    simp only [List.cons_append, findCIFrom, List.append_eq, hfalse,
      Bool.false_eq_true, if_false, ih (i + 1) h2]
    congr 1
    simp only [List.length_cons]
    omega

lemma findCI_boundary (l r v : List Char) (h : noEarlyOcc l v = true) :
    findCI l (v ++ (l ++ r)) = some v.length := by
  rw [findCI, findCIFrom_boundary l r v 0 h, Nat.zero_add]

/-- C7 (amended): for every template whose placeholders are never
adjacent and every value list in which each value is already
whitespace-trimmed and no value followed by its trailing literal contains
an earlier case-insensitive occurrence of that literal, substituting the
values into the pattern and then extracting from the formatted string
returns exactly the original values, paired with the placeholder names
in order. -/
theorem round_trip_extraction : ∀ (segs : List Seg) (vals : List (List Char)),
    roundTripSafe segs vals = true →
    extractGo segs (substGo segs vals) = some ((phNames segs).zip vals)
  | [], [], _ => by simp [extractGo, substGo, phNames]
  | [], _ :: _, h => by simp [roundTripSafe] at h
  | Seg.lit l :: rest, vals, h => by
    have h' : roundTripSafe rest vals = true := by simpa [roundTripSafe] using h
    have ih := round_trip_extraction rest vals h'
    simp only [substGo, extractGo, phNames, ciPrefixB_self_append, if_true]
    rw [List.drop_left]
    exact ih
  | [Seg.ph n], [v], h => by
    have hv : trimChars v = v := by simpa [roundTripSafe] using h
    simp [extractGo, substGo, phNames, hv]
  | [Seg.ph _], [], h => by simp [roundTripSafe] at h
  | [Seg.ph _], _ :: _ :: _, h => by simp [roundTripSafe] at h
  | Seg.ph n :: Seg.lit l :: rest, v :: vs, h => by
    have h' : (trimChars v = v ∧ noEarlyOcc l v = true) ∧ roundTripSafe rest vs = true := by
      simpa [roundTripSafe, Bool.and_eq_true, decide_eq_true_eq] using h
    obtain ⟨⟨hv, hocc⟩, hrest⟩ := h'
    have ih := round_trip_extraction rest vs hrest
    simp only [substGo, extractGo, phNames]
    rw [findCI_boundary l (substGo rest vs) v hocc]
    dsimp only
    have hdrop : (v ++ (l ++ substGo rest vs)).drop (v.length + l.length) =
        substGo rest vs := by
      rw [← List.append_assoc]
      exact List.drop_left' (by simp)
    have htake : (v ++ (l ++ substGo rest vs)).take v.length = v := List.take_left v _
    rw [hdrop, htake, ih, hv]
    simp [List.zip]
  | Seg.ph _ :: Seg.lit _ :: _, [], h => by simp [roundTripSafe] at h
  | Seg.ph _ :: Seg.ph _ :: _, _, h => by simp [roundTripSafe] at h

lemma extract_values_sub : ∀ (segs : List Seg) (input : List Char)
    (m : List (List Char × List Char)), extractGo segs input = some m →
    ∀ pr ∈ m, ∃ w, w <:+: input ∧ pr.2 = trimChars w
  | [], _, m, h => by
    simp only [extractGo, Option.some.injEq] at h
    subst h
    simp
  | Seg.lit l :: rest, input, m, h => by
    simp only [extractGo] at h
    split at h
    · intro pr hpr
      obtain ⟨w, hw, hv⟩ := extract_values_sub rest _ m h pr hpr
      exact ⟨w, hw.trans ( List.drop_suffix l.length input).isInfix, hv⟩
    · exact absurd h (by simp)
  | [Seg.ph n], input, m, h => by
    simp only [extractGo, Option.some.injEq] at h
    subst h
    intro pr hpr
    simp only [List.mem_singleton] at hpr
    subst hpr
    exact ⟨input, List.infix_rfl, rfl⟩
  | Seg.ph n :: Seg.lit l :: rest, input, m, h => by
    simp only [extractGo] at h
    split at h
    · split at h
      · simp only [Option.some.injEq] at h
        subst h
        intro pr hpr
        rcases List.mem_cons.mp hpr with hhd | htl
        · subst hhd
          exact ⟨input.take _, ( List.take_prefix _ input).isInfix, rfl⟩
        · obtain ⟨w, hw, hv⟩ := extract_values_sub rest _ _ (by assumption) pr htl
          exact ⟨w, hw.trans ( List.drop_suffix _ input).isInfix, hv⟩
      · exact absurd h (by simp)
    · exact absurd h (by simp)
  | Seg.ph _ :: Seg.ph _ :: _, _, m, h => by simp [extractGo] at h

lemma simPair_den_pos (a b : List Char) : 0 < (simPair a b).2 := by
  simp only [simPair]
  split
  · simp
  · rename_i h
    simpa using Nat.pos_of_ne_zero h

lemma simPair_num_le_den (a b : List Char) : (simPair a b).1 ≤ (simPair a b).2 := by
  simp only [simPair]
  split
  · simp
  · exact Nat.sub_le _ _

lemma similarity_nonneg (a b : List Char) : 0 ≤ similarity a b := by
  unfold similarity
  positivity

lemma similarity_le_one (a b : List Char) : similarity a b ≤ 1 := by
  unfold similarity
  rw [div_le_one (by exact_mod_cast simPair_den_pos a b)]
  exact_mod_cast simPair_num_le_den a b

lemma scoreOf_eq (input : List Char) (t : Template) :
    scoreOf input t = ((scorePair input t).1 : ℚ) / ((scorePair input t).2 : ℚ) := rfl

lemma scorePair_den_pos (input : List Char) (t : Template) :
    0 < (scorePair input t).2 := simPair_den_pos _ _

lemma scoreLeB_iff (p q : Nat × Nat) (hp : 0 < p.2) (hq : 0 < q.2) :
    scoreLeB p q = true ↔ (p.1 : ℚ) / p.2 ≤ (q.1 : ℚ) / q.2 := by
  have hp' : (0 : ℚ) < p.2 := by exact_mod_cast hp
  have hq' : (0 : ℚ) < q.2 := by exact_mod_cast hq
  rw [div_le_div_iff₀ hp' hq']
  unfold scoreLeB
  rw [decide_eq_true_eq]
  constructor
  · intro h
    exact_mod_cast h
  · intro h
    exact_mod_cast h

lemma thresholdLeB_iff (p : Nat × Nat) (hp : 0 < p.2) :
    thresholdLeB p = true ↔ threshold ≤ (p.1 : ℚ) / p.2 := by
  have hp' : (0 : ℚ) < p.2 := by exact_mod_cast hp
  unfold thresholdLeB threshold
  rw [decide_eq_true_eq, div_le_div_iff₀ (by norm_num : (0 : ℚ) < 5) hp']
  constructor
  · intro h
    have h' : ((3 * p.2 : Nat) : ℚ) ≤ ((5 * p.1 : Nat) : ℚ) := by exact_mod_cast h
    push_cast at h'
    linarith
  · intro h
    have h' : (3 : ℚ) * p.2 ≤ 5 * p.1 := by linarith
    exact_mod_cast h'

lemma thresholdLe_score_iff (input : List Char) (t : Template) :
    thresholdLeB (scorePair input t) = true ↔ threshold ≤ scoreOf input t := by
  rw [thresholdLeB_iff _ (scorePair_den_pos input t), scoreOf_eq]

lemma scoreLe_score_iff (input : List Char) (t t' : Template) :
    scoreLeB (scorePair input t) (scorePair input t') = true ↔
      scoreOf input t ≤ scoreOf input t' := by
  rw [scoreLeB_iff _ _ (scorePair_den_pos input t) (scorePair_den_pos input t'),
    scoreOf_eq, scoreOf_eq]

lemma fuzzyBest_none_lt (input : List Char) : ∀ (ts : List Template),
    fuzzyBest input ts = none → ∀ t ∈ ts, scoreOf input t < threshold
  | [], _, t, ht => absurd ht (List.not_mem_nil t)
  | t0 :: ts, h, t, ht => by
    simp only [fuzzyBest] at h
    by_cases hq : thresholdLeB (scorePair input t0) = true
    · rw [if_pos hq] at h
      cases hfb : fuzzyBest input ts with
      | none => rw [hfb] at h; exact absurd h (by simp)
      | some w =>
        rw [hfb] at h
        dsimp only at h
        split at h <;> simp at h
    · rw [if_neg hq] at h
      rcases List.mem_cons.mp ht with rfl | ht'
      · exact not_le.mp (fun hc => hq ((thresholdLe_score_iff input _).mpr hc))
      · exact fuzzyBest_none_lt input ts h t ht'

lemma fuzzyBest_spec (input : List Char) : ∀ (ts : List Template) (w : Template),
    fuzzyBest input ts = some w →
    threshold ≤ scoreOf input w ∧
    (∀ t ∈ ts, scoreOf input t ≤ scoreOf input w) ∧
    ∃ pre post, ts = pre ++ w :: post ∧ ∀ t ∈ pre, scoreOf input t < scoreOf input w
  | [], w, h => by simp [fuzzyBest] at h
  | t0 :: ts, w, h => by
    simp only [fuzzyBest] at h
    by_cases hq : thresholdLeB (scorePair input t0) = true
    · rw [if_pos hq] at h
      have hq' : threshold ≤ scoreOf input t0 := (thresholdLe_score_iff input t0).mp hq
      cases hfb : fuzzyBest input ts with
      | none =>
        rw [hfb] at h
        simp only [Option.some.injEq] at h
        subst h
        have hnone := fuzzyBest_none_lt input ts hfb
        refine ⟨hq', ?_, [], ts, by simp, by simp⟩
        intro t ht
        rcases List.mem_cons.mp ht with rfl | ht'
        · exact le_refl _
        · exact ((hnone t ht').trans_le hq').le
      | some w' =>
        rw [hfb] at h
        dsimp only at h
        obtain ⟨hw'q, hw'max, pre, post, hsplit, hpre⟩ := fuzzyBest_spec input ts w' hfb
        by_cases hle : scoreLeB (scorePair input w') (scorePair input t0) = true
        · rw [if_pos hle] at h
          simp only [Option.some.injEq] at h
          subst h
          have hle' : scoreOf input w' ≤ scoreOf input t0 :=
            (scoreLe_score_iff input w' t0).mp hle
          refine ⟨hq', ?_, [], ts, by simp, by simp⟩
          intro t ht
          rcases List.mem_cons.mp ht with rfl | ht'
          · exact le_refl _
          · exact (hw'max t ht').trans hle'
        · rw [if_neg hle] at h
          simp only [Option.some.injEq] at h
          subst h
          have hlt : scoreOf input t0 < scoreOf input w' :=
            not_le.mp (fun hc => hle ((scoreLe_score_iff input w' t0).mpr hc))
          refine ⟨hw'q, ?_, t0 :: pre, post, by simp [hsplit], ?_⟩
          · intro t ht
            rcases List.mem_cons.mp ht with rfl | ht'
            · exact hlt.le
            · exact hw'max t ht'
          · intro t ht
            rcases List.mem_cons.mp ht with rfl | ht'
            · exact hlt
            · exact hpre t ht'
    · rw [if_neg hq] at h
      obtain ⟨h1, h2, pre, post, hsplit, hpre⟩ := fuzzyBest_spec input ts w h
      have ht0lt : scoreOf input t0 < threshold :=
        not_le.mp (fun hc => hq ((thresholdLe_score_iff input t0).mpr hc))
      refine ⟨h1, ?_, t0 :: pre, post, by simp [hsplit], ?_⟩
      · intro t ht
        rcases List.mem_cons.mp ht with rfl | ht'
        · exact (ht0lt.trans_le h1).le
        · exact h2 t ht'
      · intro t ht
        rcases List.mem_cons.mp ht with rfl | ht'
        · exact ht0lt.trans_le h1
        · exact hpre t ht'

lemma extract_all_lits : ∀ (segs : List Seg) (input : List Char),
    hasPh segs = false → lower (patternText segs) = lower input →
    extractGo segs input = some []
  | [], input, _, _ => by simp [extractGo]
  | Seg.lit l :: rest, input, hph, heq => by
    have hph' : hasPh rest = false := by simpa [hasPh] using hph
    rw [patternText, lower_append] at heq
    have hpre : ciPrefixB l input = true := by
      unfold ciPrefixB
      rw [List.isPrefixOf_iff_prefix, ← heq]
      exact List.prefix_append _ _
    have hdrop : lower (patternText rest) = lower (input.drop l.length) := by
      have h1 : lower (input.drop l.length) = (lower input).drop l.length := by
        simp [lower]
      rw [h1, ← heq, List.drop_left' (by simp [lower] : (lower l).length = l.length)]
    simp only [extractGo, hpre, if_true]
    exact extract_all_lits rest _ hph' hdrop
  | Seg.ph _ :: _, _, hph, _ => by simp [hasPh] at hph

lemma exactPhase_append_first : ∀ (pre post : List Template) (t : Template)
    (input : List Char),
    hasPh t.pattern = false → ciEq (patternText t.pattern) input = true →
    (∀ t' ∈ pre, ¬(hasPh t'.pattern = false ∧ ciEq (patternText t'.pattern) input = true)) →
    exactPhase input (pre ++ t :: post) = some t
  | [], post, t, input, hph, hci, _ => by
    simp [exactPhase, hph, hci]
  | t0 :: pre, post, t, input, hph, hci, hfirst => by
    have h0 := hfirst t0 (List.mem_cons_self t0 _)
    have hcond : (!hasPh t0.pattern && ciEq (patternText t0.pattern) input) = false := by
      cases hh : hasPh t0.pattern <;> cases hc : ciEq (patternText t0.pattern) input <;>
        simp_all
    simp only [List.cons_append, exactPhase, hcond, Bool.false_eq_true, if_false]
    exact exactPhase_append_first pre post t input hph hci
      (fun t' ht' => hfirst t' (List.mem_cons_of_mem t0 ht'))

/-- Rendering of a handler's outcome by the Dispatcher: a success string
is passed through unmodified, a failure is wrapped with the failure
marker (spec section 4.4 steps 5 and 6). -/
def renderResult : HandlerResult → List Char
  | HandlerResult.ok msg => msg
  | HandlerResult.fail cause => failMarker ++ cause

lemma execute_resolved (ts : List Template) (t : Template) (input : List Char)
    (args : List (List Char × List Char)) (hn : trimChars input ≠ [])
    (hr : resolve ts (trimChars input) = some t)
    (he : extractGo t.pattern (trimChars input) = some args) :
    execute ts input = renderResult (t.handler args) := by
  simp only [execute]
  rw [if_neg hn, hr]
  dsimp only
  rw [he]
  dsimp only
  cases hh : t.handler args <;> simp [renderResult]

lemma lookupEntry_append_self {α : Type} : ∀ (reg : Registry α) (p : List Char)
    (e : RegEntry α), lookupEntry reg p = none →
    lookupEntry (reg ++ [(p, e)]) p = some e
  | [], p, e, _ => by simp [lookupEntry]
  | (q, e') :: rest, p, e, h => by
    by_cases hqp : q = p
    · simp [lookupEntry, hqp] at h
    · simp only [List.cons_append, lookupEntry, if_neg hqp]
      refine lookupEntry_append_self rest p e ?_
      simpa [lookupEntry, hqp] using h

lemma lookupEntry_append_other {α : Type} : ∀ (reg : Registry α) (p q : List Char)
    (e : RegEntry α), q ≠ p → lookupEntry (reg ++ [(p, e)]) q = lookupEntry reg q
  | [], p, q, e, hne => by
    simp only [List.nil_append, lookupEntry, if_neg (Ne.symm hne)]
  | (r, e') :: rest, p, q, e, hne => by
    by_cases hrq : r = q
    · simp [lookupEntry, hrq]
    · simp only [List.cons_append, lookupEntry, if_neg hrq]
      exact lookupEntry_append_other rest p q e hne

/-- Does a plugin import outcome avoid the uncaught exception class? -/
def notOtherError : PluginOutcome → Bool
  | PluginOutcome.otherError _ => false
  | _ => true

/-- The module names the loader loads successfully, in order. -/
def okNames : List PluginOutcome → List (List Char)
  | [] => []
  | PluginOutcome.ok n :: rest => n :: okNames rest
  | PluginOutcome.importError _ _ :: rest => okNames rest
  | PluginOutcome.otherError _ :: rest => okNames rest

/-- The warnings the loader prints for caught import errors, in order. -/
def warnMsgs : List PluginOutcome → List (List Char)
  | [] => []
  | PluginOutcome.ok _ :: rest => warnMsgs rest
  | PluginOutcome.importError n m :: rest => (n ++ m) :: warnMsgs rest
  | PluginOutcome.otherError _ :: rest => warnMsgs rest

/-- A demo template whose handler always signals failure. -/
def failT : Template :=
  ⟨parsePattern "fail please".data,
   fun _ => HandlerResult.fail "boom".data, true⟩

/-- C1: for every input, `execute` returns a descriptive string and never
lets an exception escape: a resolution failure yields an unknown-command
string that contains the unknown-command marker and names the input, an
extraction failure yields a could-not-understand-arguments string, and a
handler failure yields a string containing the failure marker and the
underlying cause description; each such result is non-empty. -/
theorem execute_error_shapes (ts : List Template) (input : List Char) :
    (trimChars input ≠ [] → resolve ts (trimChars input) = none →
      unknownMarker <:+: execute ts input ∧ input <:+: execute ts input ∧
      execute ts input ≠ []) ∧
    (∀ t : Template, trimChars input ≠ [] → resolve ts (trimChars input) = some t →
      extractGo t.pattern (trimChars input) = none →
      mismatchMarker <:+: execute ts input ∧ execute ts input ≠ []) ∧
    (∀ (t : Template) (args : List (List Char × List Char)) (cause : List Char),
      trimChars input ≠ [] → resolve ts (trimChars input) = some t →
      extractGo t.pattern (trimChars input) = some args →
      t.handler args = HandlerResult.fail cause →
      failMarker <:+: execute ts input ∧ cause <:+: execute ts input ∧
      execute ts input ≠ []) := by
  have hunknown : unknownMarker ≠ [] := by decide
  have hmis : mismatchMarker ≠ [] := by decide
  have hfail : failMarker ≠ [] := by decide
  refine ⟨?_, ?_, ?_⟩
  · intro hn hr
    have hx : execute ts input = unknownMarker ++ input := by
      simp only [execute]
      rw [if_neg hn, hr]
    rw [hx]
    exact ⟨⟨[], input, by simp⟩, ⟨unknownMarker, [], by simp⟩,
      fun hc => hunknown (List.append_eq_nil.mp hc).1⟩
  · intro t hn hr he
    have hx : execute ts input = mismatchMarker ++ patternText t.pattern := by
      simp only [execute]
      rw [if_neg hn, hr]
      dsimp only
      rw [he]
    rw [hx]
    exact ⟨⟨[], patternText t.pattern, by simp⟩,
      fun hc => hmis (List.append_eq_nil.mp hc).1⟩
  · intro t args cause hn hr he hf
    have hx : execute ts input = failMarker ++ cause := by
      simp only [execute]
      rw [if_neg hn, hr]
      dsimp only
      rw [he]
      dsimp only
      rw [hf]
    rw [hx]
    exact ⟨⟨[], cause, by simp⟩, ⟨failMarker, [], by simp⟩,
      fun hc => hfail (List.append_eq_nil.mp hc).1⟩

/-- C1 witness: on the demo registry whose only handler fails, `execute`
returns a string carrying the failure marker and the cause. -/
theorem execute_error_shapes_witness :
    failMarker <:+: execute [failT] "fail please".data ∧
    "boom".data <:+: execute [failT] "fail please".data ∧
    execute [failT] "fail please".data ≠ [] :=
  (execute_error_shapes [failT] "fail please".data).2.2 failT [] "boom".data
    (by decide) (by rfl) (by rfl) (by rfl)

/-- C5: when the raw input is empty or whitespace-only, `execute` returns
the fixed non-empty empty-command string, independent of the registry, so
the Resolver is never consulted. -/
theorem execute_empty_input (ts ts' : List Template) (input : List Char)
    (h : trimChars input = []) :
    execute ts input = emptyMsg ∧ execute ts input = execute ts' input ∧
    emptyMsg ≠ [] := by
  have hx : ∀ us : List Template, execute us input = emptyMsg := by
    intro us
    simp only [execute]
    rw [if_pos h]
  exact ⟨hx ts, (hx ts).trans (hx ts').symm, by decide⟩

/-- C5 witness: the empty string and a whitespace-only string both yield
the fixed non-empty empty-command result on the demo registry. -/
theorem execute_empty_input_witness :
    execute demoRegistry "".data = emptyMsg ∧
    execute demoRegistry "   ".data = emptyMsg ∧ emptyMsg ≠ [] :=
  ⟨(execute_empty_input demoRegistry [] "".data (by decide)).1,
   (execute_empty_input demoRegistry [] "   ".data (by decide)).1, by decide⟩

/-- C2: every similarity score lies in the closed interval from 0 to 1;
when no exact literal match exists and the Resolver returns a template,
that template's score reaches the threshold 3 / 5, no registered template
scores higher, and every earlier-registered template scores strictly
lower, so ties are broken by insertion order and resolution is
deterministic; in particular "say helo" resolves to the registered
template "say hello" on the demo registry. -/
theorem resolver_fuzzy_selection :
    (∀ a b : List Char, 0 ≤ similarity a b ∧ similarity a b ≤ 1) ∧
    (∀ (ts : List Template) (input : List Char) (w : Template),
      exactPhase input ts = none → resolve ts input = some w →
      threshold ≤ scoreOf input w ∧
      (∀ t ∈ ts, scoreOf input t ≤ scoreOf input w) ∧
      ∃ pre post, ts = pre ++ w :: post ∧
        ∀ t ∈ pre, scoreOf input t < scoreOf input w) ∧
    (resolve demoRegistry (trimChars "say helo".data)).map
        (fun t => patternText t.pattern) = some "say hello".data := by
  refine ⟨fun a b => ⟨similarity_nonneg a b, similarity_le_one a b⟩, ?_, by decide⟩
  intro ts input w hex hres
  have hfb : fuzzyBest input ts = some w := by
    unfold resolve at hres
    rw [hex] at hres
    exact hres
  exact fuzzyBest_spec input ts w hfb

/-- C2 witness: on the demo registry the fuzzy winner for "say helo"
reaches the threshold and beats both other templates' scores. -/
theorem resolver_fuzzy_selection_witness :
    threshold ≤ scoreOf (trimChars "say helo".data) sayHelloT ∧
    scoreOf (trimChars "say helo".data) pingT ≤
      scoreOf (trimChars "say helo".data) sayHelloT ∧
    scoreOf (trimChars "say helo".data) timeT ≤
      scoreOf (trimChars "say helo".data) sayHelloT := by
  have h := resolver_fuzzy_selection.2.1 demoRegistry (trimChars "say helo".data)
    sayHelloT (by rfl) (by rfl)
  exact ⟨h.1, h.2.1 pingT (by simp [demoRegistry]),
    h.2.1 timeT (by simp [demoRegistry])⟩

/-- C3: every value the Extractor captures is a whitespace-trimmed
substring of the raw input, and on the documented examples the Extractor
returns exactly the expected placeholder-to-value mappings. -/
theorem extractor_parameter_values :
    (∀ (segs : List Seg) (input : List Char) (m : List (List Char × List Char)),
      extractGo segs input = some m →
      ∀ pr ∈ m, ∃ w, w <:+: input ∧ pr.2 = trimChars w) ∧
    extract_arguments_from_user_input "copy file.txt to backup.txt".data
        "copy {source} to {destination}".data =
      some [("source".data, "file.txt".data), ("destination".data, "backup.txt".data)] ∧
    extract_arguments_from_user_input "ping google.com".data "ping {host}".data =
      some [("host".data, "google.com".data)] :=
  ⟨extract_values_sub, by decide, by decide⟩

/-- C3 witness: the value captured for the host placeholder is a trimmed
substring of the raw input. -/
theorem extractor_parameter_values_witness :
    ∃ w, w <:+: "ping google.com".data ∧ "google.com".data = trimChars w :=
  extractor_parameter_values.1 (parsePattern "ping {host}".data)
    "ping google.com".data [("host".data, "google.com".data)] (by decide)
    ("host".data, "google.com".data) (by decide)

/-- A demo template registered first, in upper case. -/
def sayHiUpperT : Template :=
  ⟨parsePattern "SAY HI".data, fun _ => HandlerResult.ok "one".data, true⟩

/-- A demo template registered second, in lower case. -/
def sayHiLowerT : Template :=
  ⟨parsePattern "say hi".data, fun _ => HandlerResult.ok "two".data, true⟩

/-- C4 counterexample: "say hi" is the exact pattern of the
placeholder-free registered template `sayHiLowerT`, yet
`execute "say hi"` reaches the handler of the earlier-registered
case-insensitively equal template `sayHiUpperT` instead, so not every
placeholder-free registered template's handler is reached by executing
its own pattern. -/
theorem exact_phase_shadowing_cex :
    execute [sayHiUpperT, sayHiLowerT] "say hi".data = "one".data ∧
    renderResult (sayHiLowerT.handler []) = "two".data ∧
    "one".data ≠ ("two".data : List Char) :=
  ⟨by decide, by decide, by decide⟩

/-- C4 (amended): in the exact phase the Resolver compares the normalized
input case-insensitively but whitespace-exactly against every
placeholder-free template and returns the first match in insertion order
without any fuzzy scoring; consequently a placeholder-free registered
template's handler is reached by any letter-case variant of its pattern
provided no earlier-registered placeholder-free template is
case-insensitively equal to it. -/
theorem exact_phase_first_match (pre post : List Template) (t : Template)
    (input : List Char)
    (hph : hasPh t.pattern = false)
    (hci : ciEq (patternText t.pattern) (trimChars input) = true)
    (hfirst : ∀ t' ∈ pre, ¬(hasPh t'.pattern = false ∧
      ciEq (patternText t'.pattern) (trimChars input) = true))
    (hn : trimChars input ≠ []) :
    exactPhase (trimChars input) (pre ++ t :: post) = some t ∧
    resolve (pre ++ t :: post) (trimChars input) = some t ∧
    execute (pre ++ t :: post) input = renderResult (t.handler []) := by
  have hex := exactPhase_append_first pre post t (trimChars input) hph hci hfirst
  have hres : resolve (pre ++ t :: post) (trimChars input) = some t := by
    unfold resolve
    rw [hex]
  have hlow : lower (patternText t.pattern) = lower (trimChars input) := by
    have h' := hci
    unfold ciEq at h'
    exact eq_of_beq h'
  have hextract : extractGo t.pattern (trimChars input) = some [] :=
    extract_all_lits t.pattern (trimChars input) hph hlow
  exact ⟨hex, hres, execute_resolved _ t input [] hn hres hextract⟩

/-- C4 witness: an upper-case variant of the pattern "say hello" reaches
that template's handler on the demo registry. -/
theorem exact_phase_first_match_witness :
    resolve demoRegistry (trimChars "SAY HELLO".data) = some sayHelloT ∧
    execute demoRegistry "SAY HELLO".data = "Hello! Caelum here.".data := by
  have h := exact_phase_first_match [] [pingT, timeT] sayHelloT "SAY HELLO".data
    (by decide) (by decide) (by simp) (by decide)
  exact ⟨h.2.1, h.2.2⟩

/-- C6: registering a pattern that is already present fails with
`DuplicateTemplateError` and the first registration's entry — handler and
safety metadata — is what the registry still holds. -/
theorem register_duplicate_error {α : Type} (reg reg1 : Registry α) (p : List Char)
    (f g : α) (sf sg : Bool)
    (hfresh : lookupEntry reg p = none)
    (h1 : registerCommandWith reg p f sf = Except.ok reg1) :
    registerCommandWith reg1 p g sg = Except.error ⟨p⟩ ∧
    lookupEntry reg1 p = some ⟨f, sf⟩ := by
  have hreg1 : reg1 = reg ++ [(p, ⟨f, sf⟩)] := by
    unfold registerCommandWith at h1
    rw [hfresh] at h1
    simpa using h1.symm
  have hl : lookupEntry reg1 p = some ⟨f, sf⟩ := by
    rw [hreg1]
    exact lookupEntry_append_self reg p ⟨f, sf⟩ hfresh
  refine ⟨?_, hl⟩
  unfold registerCommandWith
  rw [hl]

/-- C6 witness: registering "pause music" twice fails the second time with
the duplicate error and keeps the first entry. -/
theorem register_duplicate_error_witness :
    registerCommandWith [("pause music".data, (⟨0, true⟩ : RegEntry Nat))]
      "pause music".data 1 false = Except.error ⟨"pause music".data⟩ ∧
    lookupEntry [("pause music".data, (⟨0, true⟩ : RegEntry Nat))]
      "pause music".data = some ⟨0, true⟩ :=
  register_duplicate_error ([] : Registry Nat)
    [("pause music".data, ⟨0, true⟩)] "pause music".data 0 1 true false
    (by rfl) (by rfl)

/-- C7 counterexample: for the template "say {x}" and the value "a ",
which does not contain the template's only literal separator "say ",
formatting and then extracting loses the value's trailing whitespace, so
the round trip does not return the original value set. -/
theorem round_trip_cex :
    ¬("say ".data <:+: "a ".data) ∧
    substGo (parsePattern "say {x}".data) ["a ".data] = "say a ".data ∧
    extractGo (parsePattern "say {x}".data) "say a ".data =
      some [("x".data, "a".data)] ∧
    some [("x".data, "a".data)] ≠ some [("x".data, "a ".data)] :=
  ⟨by decide, by decide, by decide, by decide⟩

/-- C7 witness: the copy template with literal-safe trimmed values round
trips to exactly the original values. -/
theorem round_trip_extraction_witness :
    extractGo (parsePattern "copy {source} to {destination}".data)
      (substGo (parsePattern "copy {source} to {destination}".data)
        ["file.txt".data, "backup.txt".data]) =
    some [("source".data, "file.txt".data),
      ("destination".data, "backup.txt".data)] :=
  round_trip_extraction (parsePattern "copy {source} to {destination}".data)
    ["file.txt".data, "backup.txt".data] (by decide)

/-- C8 counterexample: registering "take screenshot" through
`register_command` with no explicit safety marker — exactly as
`src/caelum_sys/plugins/screenshot_tools.py` does — stores the entry with
`safe = true`, as `src/tests/test_comprehensive.py` requires, not
`safe = false` as claimed. -/
theorem register_default_safety_cex :
    register_command ([] : Registry Nat) "take screenshot".data 0 =
      Except.ok [("take screenshot".data, ⟨0, true⟩)] ∧
    lookupEntry [("take screenshot".data, (⟨0, true⟩ : RegEntry Nat))]
      "take screenshot".data = some ⟨0, true⟩ ∧
    (⟨0, true⟩ : RegEntry Nat).safe ≠ false :=
  ⟨rfl, rfl, by decide⟩

/-- C8 (amended): every registration made through
`register_command(pattern)` without an explicit safety marker stores the
resulting entry with `safe = true`; the classification `safe = false` is
applied only when the registering unit passes the explicit marker, and
both safety classes are representable through the explicit-marker entry
point. -/
theorem register_default_safety {α : Type} (reg : Registry α) (p : List Char)
    (f : α) (h : lookupEntry reg p = none) :
    (∃ reg1, register_command reg p f = Except.ok reg1 ∧
      lookupEntry reg1 p = some ⟨f, true⟩) ∧
    (∀ s : Bool, ∃ reg2, registerCommandWith reg p f s = Except.ok reg2 ∧
      lookupEntry reg2 p = some ⟨f, s⟩) := by
  constructor
  · refine ⟨reg ++ [(p, ⟨f, true⟩)], ?_, lookupEntry_append_self reg p _ h⟩
    unfold register_command registerCommandWith
    rw [h]
  · intro s
    refine ⟨reg ++ [(p, ⟨f, s⟩)], ?_, lookupEntry_append_self reg p _ h⟩
    unfold registerCommandWith
    rw [h]

/-- C8 witness: a bare registration of "take screenshot" stores
`safe = true`, and the explicit marker stores the marked class. -/
theorem register_default_safety_witness :
    (∃ reg1, register_command ([] : Registry Nat) "take screenshot".data 0 =
      Except.ok reg1 ∧
      lookupEntry reg1 "take screenshot".data = some ⟨0, true⟩) ∧
    (∀ s : Bool, ∃ reg2,
      registerCommandWith ([] : Registry Nat) "take screenshot".data 0 s =
        Except.ok reg2 ∧
      lookupEntry reg2 "take screenshot".data = some ⟨0, s⟩) :=
  register_default_safety ([] : Registry Nat) "take screenshot".data 0 (by rfl)

/-- C9 counterexample: a plugin whose import fails with an exception that
is not an `ImportError` escapes `load_all_plugins`, and the remaining
plugin is never loaded. -/
theorem loader_other_error_cex :
    load_all_plugins [PluginOutcome.otherError "boom".data,
      PluginOutcome.ok "media_controls".data] = Except.error "boom".data ∧
    ∀ loaded warns, load_all_plugins [PluginOutcome.otherError "boom".data,
      PluginOutcome.ok "media_controls".data] ≠ Except.ok (loaded, warns) := by
  refine ⟨rfl, ?_⟩
  intro loaded warns hc
  simp [load_all_plugins] at hc

/-- C9 (amended): when every plugin import either succeeds or fails with
an `ImportError`, the loader never throws: it returns the successfully
loaded modules in order together with one printed warning per caught
failure, so a plugin failing with `ImportError` never prevents the
remaining plugins from being loaded. -/
theorem loader_import_errors_tolerated : ∀ (ps : List PluginOutcome),
    ps.all notOtherError = true →
    load_all_plugins ps = Except.ok (okNames ps, warnMsgs ps)
  | [], _ => rfl
  | PluginOutcome.ok n :: rest, h => by
    have h' : rest.all notOtherError = true := by
      rw [List.all_cons, Bool.and_eq_true] at h
      exact h.2
    simp [load_all_plugins, loader_import_errors_tolerated rest h', okNames, warnMsgs]
  | PluginOutcome.importError n m :: rest, h => by
    have h' : rest.all notOtherError = true := by
      rw [List.all_cons, Bool.and_eq_true] at h
      exact h.2
    simp [load_all_plugins, loader_import_errors_tolerated rest h', okNames, warnMsgs]
  | PluginOutcome.otherError m :: rest, h => by
    simp [List.all_cons, notOtherError] at h

/-- C9 witness: a failing import between two good plugins is reported as
a warning while both good plugins load. -/
theorem loader_import_errors_tolerated_witness :
    load_all_plugins [PluginOutcome.ok "media_controls".data,
      PluginOutcome.importError "screenshot_tools".data ": no pyautogui".data,
      PluginOutcome.ok "misc_commands".data] =
    Except.ok (["media_controls".data, "misc_commands".data],
      ["screenshot_tools".data ++ ": no pyautogui".data]) :=
  loader_import_errors_tolerated [PluginOutcome.ok "media_controls".data,
    PluginOutcome.importError "screenshot_tools".data ": no pyautogui".data,
    PluginOutcome.ok "misc_commands".data] (by decide)

/-- C10: applying the `register_command(pattern)` decorator to a function
adds exactly one entry and changes nothing else: the new registry is one
entry longer, the pattern maps to a record whose `func` field is the
original function itself, every previously registered entry is unchanged
in place, and the pattern appears in the registered phrase list. -/
theorem register_command_adds_entry {α : Type} (reg : Registry α) (p : List Char)
    (f : α) (h : lookupEntry reg p = none) :
    ∃ reg1, register_command reg p f = Except.ok reg1 ∧
      reg1.length = reg.length + 1 ∧
      lookupEntry reg1 p = some ⟨f, true⟩ ∧
      (∀ q, q ≠ p → lookupEntry reg1 q = lookupEntry reg q) ∧
      reg <+: reg1 ∧
      p ∈ get_registered_command_phrases reg1 := by
  refine ⟨reg ++ [(p, ⟨f, true⟩)], ?_, by simp, lookupEntry_append_self reg p _ h,
    fun q hq => lookupEntry_append_other reg p q _ hq, List.prefix_append _ _, ?_⟩
  · unfold register_command registerCommandWith
    rw [h]
  · simp [get_registered_command_phrases]

/-- C10 witness: registering the test pattern on a one-entry registry
grows it to two entries, stores the function itself, and leaves the old
entry unchanged. -/
theorem register_command_adds_entry_witness :
    ∃ reg1, register_command [("say hello".data, (⟨5, true⟩ : RegEntry Nat))]
        "test command for testing".data 7 = Except.ok reg1 ∧
      reg1.length = 2 ∧
      lookupEntry reg1 "test command for testing".data = some ⟨7, true⟩ ∧
      lookupEntry reg1 "say hello".data = some ⟨5, true⟩ ∧
      "test command for testing".data ∈ get_registered_command_phrases reg1 := by
  obtain ⟨reg1, h1, h2, h3, h4, _, h6⟩ :=
    register_command_adds_entry [("say hello".data, (⟨5, true⟩ : RegEntry Nat))]
      "test command for testing".data 7 (by rfl)
  exact ⟨reg1, h1, h2, h3,
    (h4 "say hello".data (by decide)).trans (by rfl), h6⟩
